import Mathlib

/-!
Verification of the transcription pipeline in `src/transcriber.py` (repository
`VCasecnikovs/hlopya`).

The Python code is shallowly embedded: Python `float` times and samples are
modelled as exact rationals (`ℚ`) for the segment bookkeeping and as real
numbers (`ℝ`) for the echo-suppression signal processing; Python exceptions
are modelled with `Except String`; Python's stable `list.sort` is modelled by
`List.insertionSort`, which is stable; the file system touched by
`save_transcript` / `transcribe_meeting` is modelled explicitly so that the
error-handling claims about on-disk state become statements about pure
functions.
-/

namespace Hlopya

/-- `Segment` dataclass (transcriber.py:20-26): one attributed span of speech.
The Python field `end` is called `end_` here. -/
structure Segment where
  speaker : String
  start : ℚ
  end_ : ℚ
  text : String
  language : String
deriving DecidableEq, Repr

/-- The comparison key used by `merge_channels` (transcriber.py:259):
`key=lambda s: s.start`. -/
def startLE (a b : Segment) : Prop := a.start ≤ b.start

instance : DecidableRel startLE := fun a b => inferInstanceAs (Decidable (a.start ≤ b.start))

instance : IsTotal Segment startLE := ⟨fun a b => le_total a.start b.start⟩

instance : IsTrans Segment startLE := ⟨fun _ _ _ h h' => le_trans h h'⟩

/-- Python's `str.strip()` on the character list: drop leading and trailing
whitespace. -/
def stripChars (cs : List Char) : List Char :=
  ((cs.dropWhile Char.isWhitespace).reverse.dropWhile Char.isWhitespace).reverse

/-- Python's `str.strip()` (no arguments): remove leading and trailing
whitespace characters. -/
def pyStrip (s : String) : String := String.mk (stripChars s.data)

/-- The filter used by `merge_channels` (transcriber.py:262): keep a segment
iff `s.text.strip()` is truthy, i.e. the stripped text is nonempty. -/
def keepSegment (s : Segment) : Bool := !(pyStrip s.text == "")

/-- `Transcriber.merge_channels` (transcriber.py:256-264): concatenate the two
channels' segments, sort by `start` with Python's stable sort (modelled by the
stable `List.insertionSort`), then drop segments whose stripped text is empty. -/
def merge_channels (mic_segments sys_segments : List Segment) : List Segment :=
  let all_segments := List.insertionSort startLE (mic_segments ++ sys_segments)
  all_segments.filter keepSegment

/-- Stability of `orderedInsert` seen through the equal-`start` filter: the
inserted element lands in front of exactly the equal-key elements of `l`,
because every element it is inserted behind has a strictly smaller key. -/
theorem filter_start_orderedInsert (t : ℚ) (x : Segment) (l : List Segment) :
    (List.orderedInsert startLE x l).filter (fun s => s.start == t) =
      if x.start = t then x :: l.filter (fun s => s.start == t)
      else l.filter (fun s => s.start == t) := by
  induction l with
  | nil =>
    simp only [List.orderedInsert]
    by_cases h : x.start = t
    · simp [List.filter_cons, h]
    · simp [List.filter_cons, beq_iff_eq, h]
  | cons b l ih =>
    simp only [List.orderedInsert]
    by_cases hle : startLE x b
    · rw [if_pos hle]
      by_cases h : x.start = t
      · simp [List.filter_cons, beq_iff_eq, h]
      · simp [List.filter_cons, beq_iff_eq, h]
    · rw [if_neg hle]
      have hbt : b.start < x.start := lt_of_not_le hle
      by_cases h : x.start = t
      · have hb : ¬ b.start = t := by
          intro hbeq
          exact absurd (hbeq.trans h.symm) (ne_of_lt hbt)
        simp [List.filter_cons, beq_iff_eq, ih, h, hb]
      · by_cases hb : b.start = t
        · simp [List.filter_cons, beq_iff_eq, ih, h, hb]
        · simp [List.filter_cons, beq_iff_eq, ih, h, hb]

/-- Stability of the model sort: filtering the sorted list down to the
segments with any fixed `start` value returns exactly the same-`start`
segments of the input, in their original order. -/
theorem filter_start_insertionSort (t : ℚ) (l : List Segment) :
    (List.insertionSort startLE l).filter (fun s => s.start == t) =
      l.filter (fun s => s.start == t) := by
  induction l with
  | nil => rfl
  | cons a l ih =>
    simp only [List.insertionSort]
    rw [filter_start_orderedInsert]
    by_cases h : a.start = t
    · simp [List.filter_cons, beq_iff_eq, h, ih]
    · simp [List.filter_cons, beq_iff_eq, h, ih]

/-- Membership in the merge output implies membership in one of the inputs. -/
theorem mem_of_mem_merge_channels {s : Segment} {mic_segments sys_segments : List Segment}
    (h : s ∈ merge_channels mic_segments sys_segments) :
    s ∈ mic_segments ++ sys_segments := by
  have h1 : s ∈ List.insertionSort startLE (mic_segments ++ sys_segments) :=
    List.mem_of_mem_filter h
  exact (List.perm_insertionSort startLE (mic_segments ++ sys_segments)).mem_iff.mp h1

/-- The merge output is a filter of the sorted concatenation; its text fields
survive `keepSegment`. -/
theorem keep_of_mem_merge_channels {s : Segment} {mic_segments sys_segments : List Segment}
    (h : s ∈ merge_channels mic_segments sys_segments) : pyStrip s.text ≠ "" := by
  have h2 := List.of_mem_filter h
  simpa [keepSegment] using h2

/-- Claim C1, counterexample: `merge_channels` does NOT return the stable
ascending sort of the concatenation itself — a segment whose stripped text is
empty is dropped from the output but present in the sorted concatenation. -/
theorem c1_counterexample :
    merge_channels [] [⟨"Them", 0, 1, "", ""⟩] ≠
      List.insertionSort startLE ([] ++ [⟨"Them", 0, 1, "", ""⟩]) := by
  decide

/-- Claim C1 (amended): `merge_channels` returns the stable ascending sort by
`start` of the concatenation self-then-remote, restricted to segments whose
trimmed text is nonempty: the output is sorted by `start`, and for every fixed
`start` value the output lists exactly the kept equal-`start` segments of the
concatenation in their original order (so equal-`start` self segments precede
remote ones and each channel keeps its relative order); the result is a pure
function of the two inputs. -/
theorem c1_merge_is_filtered_stable_sort (mic_segments sys_segments : List Segment) :
    (merge_channels mic_segments sys_segments).Pairwise startLE ∧
    ∀ t : ℚ, (merge_channels mic_segments sys_segments).filter (fun s => s.start == t) =
      ((mic_segments ++ sys_segments).filter keepSegment).filter (fun s => s.start == t) := by
  have hcomm : ∀ (l : List Segment) (t : ℚ),
      (l.filter keepSegment).filter (fun s => s.start == t) =
        (l.filter (fun s => s.start == t)).filter keepSegment := by
    intro l t
    rw [List.filter_filter, List.filter_filter]
    simp only [Bool.and_comm]
  constructor
  · have hs : (List.insertionSort startLE (mic_segments ++ sys_segments)).Pairwise startLE :=
      List.sorted_insertionSort startLE (mic_segments ++ sys_segments)
    exact hs.filter keepSegment
  · intro t
    simp only [merge_channels]
    rw [hcomm, filter_start_insertionSort, ← hcomm]

/-- Claim C4 (confirmed): no segment with empty or whitespace-only text
survives `merge_channels`; in particular merging an empty self channel with
the single remote segment `(0, 1, "")` yields the empty list. -/
theorem c4_merge_filters_blank_text :
    (∀ (mic_segments sys_segments : List Segment) (s : Segment),
        s ∈ merge_channels mic_segments sys_segments → pyStrip s.text ≠ "") ∧
    merge_channels [] [⟨"Them", 0, 1, "", ""⟩] = [] := by
  constructor
  · intro _ _ _ hs
    exact keep_of_mem_merge_channels hs
  · decide

/-- Witness for C4: a concrete segment surviving a concrete merge has
nonblank trimmed text. -/
theorem c4_witness :
    (⟨"Me", 0, 2, "hello", ""⟩ : Segment) ∈ merge_channels [⟨"Me", 0, 2, "hello", ""⟩] [] ∧
    pyStrip (⟨"Me", 0, 2, "hello", ""⟩ : Segment).text ≠ "" :=
  ⟨by decide, c4_merge_filters_blank_text.1 [⟨"Me", 0, 2, "hello", ""⟩] [] _ (by decide)⟩

/-- The speaker-tagging loop in `transcribe_channel` (transcriber.py:248-249):
`for seg in segments: seg.speaker = speaker`. -/
def tagSpeaker (speaker : String) (segments : List Segment) : List Segment :=
  segments.map fun s => { s with speaker := speaker }

/-- `Transcriber.transcribe_channel` (transcriber.py:232-254), with the two
backends abstracted as fallible functions from an audio path to segments
(`_transcribe_parakeet` / `_transcribe_whisper` call external inference
engines; a raised Python exception is an `Except.error`).  When the configured
primary is `"parakeet"`, a parakeet failure falls back to whisper on the same
path; the `"whisper"` branch and the final `else` branch both call whisper
with no fallback.  Every returned segment is tagged with `speaker`. -/
def transcribe_channel (primary : String)
    (parakeet whisper : String → Except String (List Segment))
    (audio_path speaker : String) : Except String (List Segment) :=
  let segments : Except String (List Segment) :=
    if primary = "parakeet" then
      match parakeet audio_path with
      | Except.ok segs => Except.ok segs
      | Except.error _ => whisper audio_path
    else if primary = "whisper" then
      whisper audio_path
    else
      whisper audio_path
  segments.map (tagSpeaker speaker)

/-- A primary backend stub that always raises (for the fallback witnesses). -/
def alwaysRaise : String → Except String (List Segment) := fun _ => Except.error "backend down"

/-- A backend stub returning one fixed segment (for the fallback witnesses). -/
def oneSegmentStub : String → Except String (List Segment) := fun _ =>
  Except.ok [⟨"", 0, 1, "hi", "en"⟩]

/-- Claim C2 (confirmed): with primary `"parakeet"`, if parakeet raises on an
audio path and whisper succeeds on the same path, `transcribe_channel` returns
whisper's segments tagged with the given speaker; with primary `"whisper"`
there is no fallback and a whisper error propagates to the caller. -/
theorem c2_fallback_on_parakeet_failure
    (parakeet whisper : String → Except String (List Segment)) (audio_path speaker : String) :
    (∀ e segs, parakeet audio_path = Except.error e → whisper audio_path = Except.ok segs →
      transcribe_channel "parakeet" parakeet whisper audio_path speaker =
        Except.ok (tagSpeaker speaker segs)) ∧
    (∀ e, whisper audio_path = Except.error e →
      transcribe_channel "whisper" parakeet whisper audio_path speaker = Except.error e) := by
  constructor
  · intro e segs hp hw
    simp [transcribe_channel, hp, hw, Except.map]
  · intro e hw
    simp [transcribe_channel, hw, Except.map]

/-- Witness for C2: concrete stubs exercising both conjuncts. -/
theorem c2_witness :
    transcribe_channel "parakeet" alwaysRaise oneSegmentStub "mic.wav" "Me" =
      Except.ok (tagSpeaker "Me" [⟨"", 0, 1, "hi", "en"⟩]) ∧
    transcribe_channel "whisper" alwaysRaise alwaysRaise "mic.wav" "Me" =
      Except.error "backend down" :=
  ⟨(c2_fallback_on_parakeet_failure alwaysRaise oneSegmentStub "mic.wav" "Me").1
      "backend down" [⟨"", 0, 1, "hi", "en"⟩] rfl rfl,
    (c2_fallback_on_parakeet_failure alwaysRaise alwaysRaise "mic.wav" "Me").2
      "backend down" rfl⟩

/-- Claim C10 (confirmed): for any configured primary other than
`"parakeet"` — including strings outside `{"parakeet", "whisper"}` —
`transcribe_channel` is whisper applied directly (tagged), so a whisper error
propagates unchanged. -/
theorem c10_non_parakeet_goes_to_whisper (primary : String) (h : primary ≠ "parakeet")
    (parakeet whisper : String → Except String (List Segment)) (audio_path speaker : String) :
    transcribe_channel primary parakeet whisper audio_path speaker =
      (whisper audio_path).map (tagSpeaker speaker) ∧
    (∀ e, whisper audio_path = Except.error e →
      transcribe_channel primary parakeet whisper audio_path speaker = Except.error e) := by
  have hmain : transcribe_channel primary parakeet whisper audio_path speaker =
      (whisper audio_path).map (tagSpeaker speaker) := by
    by_cases hw : primary = "whisper"
    · simp [transcribe_channel, h, hw]
    · simp [transcribe_channel, h, hw]
  refine ⟨hmain, fun e hw => ?_⟩
  rw [hmain, hw]
  rfl

/-- Witness for C10: an unrecognized primary model name dispatches to whisper
and propagates its error. -/
theorem c10_witness :
    transcribe_channel "qwen" alwaysRaise oneSegmentStub "mic.wav" "Them" =
      (oneSegmentStub "mic.wav").map (tagSpeaker "Them") ∧
    transcribe_channel "qwen" oneSegmentStub alwaysRaise "mic.wav" "Them" =
      Except.error "backend down" :=
  ⟨(c10_non_parakeet_goes_to_whisper "qwen" (by decide) alwaysRaise oneSegmentStub
      "mic.wav" "Them").1,
    (c10_non_parakeet_goes_to_whisper "qwen" (by decide) oneSegmentStub alwaysRaise
      "mic.wav" "Them").2 "backend down" rfl⟩

/-- A word timestamp entry as consumed by `_group_words_into_segments`
(a Python dict with keys `"word"`, `"start"`, `"end"`). -/
structure Word where
  word : String
  start : ℚ
  end_ : ℚ
deriving DecidableEq, Repr

/-- Python's `sep.join(parts)`. -/
def pyJoin (sep : String) : List String → String
  | [] => ""
  | [p] => p
  | p :: q :: rest => p ++ sep ++ pyJoin sep (q :: rest)

/-- The segment emitted by `_group_words_into_segments`
(transcriber.py:123-128 and 133-139): text is the space-join of the collected
words, stripped. -/
def mkGroupSegment (current_start : ℚ) (current_words : List String) (end_ : ℚ) : Segment :=
  ⟨"", current_start, end_, pyStrip (pyJoin " " current_words), ""⟩

/-- The loop of `_group_words_into_segments` (transcriber.py:117-139), carrying
`current_start` and `current_words`.  At the last word no gap is checked and
the final (always nonempty) accumulator is flushed with the last word's end
time; between two consecutive words a boundary is emitted when the gap
`next.start - cur.end` strictly exceeds `max_gap`. -/
def group_loop (max_gap : ℚ) : List Word → ℚ → List String → List Segment
  | [], _, _ => []
  | [w], current_start, current_words =>
      [mkGroupSegment current_start (current_words ++ [w.word]) w.end_]
  | w :: w' :: rest, current_start, current_words =>
      if w'.start - w.end_ > max_gap then
        mkGroupSegment current_start (current_words ++ [w.word]) w.end_ ::
          group_loop max_gap (w' :: rest) w'.start []
      else
        group_loop max_gap (w' :: rest) current_start (current_words ++ [w.word])

/-- `Transcriber._group_words_into_segments` (transcriber.py:108-141); the
Python default for `max_gap` is `1.5`. -/
def _group_words_into_segments (word_stamps : List Word) (max_gap : ℚ) : List Segment :=
  match word_stamps with
  | [] => []
  | w :: _ => group_loop max_gap word_stamps w.start []

/-- Specification-side chunking (from the claim's words): split the word list
into maximal runs, inserting a boundary between two consecutive words exactly
when `next.start - cur.end > max_gap`. -/
def chunkByGap (max_gap : ℚ) : List Word → List (List Word)
  | [] => []
  | [w] => [[w]]
  | w :: w' :: rest =>
      let tailChunks := chunkByGap max_gap (w' :: rest)
      if w'.start - w.end_ > max_gap then [w] :: tailChunks
      else (w :: tailChunks.headD []) :: tailChunks.tail

/-- Specification-side segment of one chunk: start of its first word, end of
its last word, text the stripped space-join of its words. -/
def segOfChunk (c : List Word) : Segment :=
  ⟨"", (c.head?.map Word.start).getD 0, (c.getLast?.map Word.end_).getD 0,
    pyStrip (pyJoin " " (c.map Word.word)), ""⟩

theorem chunkByGap_ne_nil (g : ℚ) : ∀ ws : List Word, ws ≠ [] → chunkByGap g ws ≠ [] := by
  intro ws hws
  match ws with
  | [w] => simp [chunkByGap]
  | w :: w' :: rest =>
    simp only [chunkByGap]
    by_cases hgap : w'.start - w.end_ > g
    · simp [hgap]
    · simp [hgap]

theorem chunkByGap_chunks_ne_nil (g : ℚ) :
    ∀ ws : List Word, ∀ c ∈ chunkByGap g ws, c ≠ [] := by
  intro ws
  induction ws with
  | nil => intro c hc; simp [chunkByGap] at hc
  | cons w tail ih =>
    intro c hc
    match tail with
    | [] =>
      simp [chunkByGap] at hc
      simp [hc]
    | w' :: rest =>
      rcases h : chunkByGap g (w' :: rest) with _ | ⟨c0, cs0⟩
      · exact absurd h (chunkByGap_ne_nil g (w' :: rest) (by simp))
      · simp only [chunkByGap, h] at hc
        have hc0 : ∀ c ∈ c0 :: cs0, c ≠ [] := fun c hmem => ih c (h ▸ hmem)
        by_cases hgap : w'.start - w.end_ > g
        · rw [if_pos hgap] at hc
          rw [List.mem_cons] at hc
          rcases hc with hc | hc
          · simp [hc]
          · exact hc0 c hc
        · rw [if_neg hgap] at hc
          simp only [List.headD_cons, List.tail_cons] at hc
          rw [List.mem_cons] at hc
          rcases hc with hc | hc
          · simp [hc]
          · exact hc0 c (List.mem_cons_of_mem c0 hc)

theorem chunkByGap_flatten (g : ℚ) : ∀ ws : List Word, (chunkByGap g ws).flatten = ws := by
  intro ws
  induction ws with
  | nil => rfl
  | cons w tail ih =>
    match tail with
    | [] => simp [chunkByGap]
    | w' :: rest =>
      rcases h : chunkByGap g (w' :: rest) with _ | ⟨c0, cs0⟩
      · exact absurd h (chunkByGap_ne_nil g (w' :: rest) (by simp))
      · rw [h] at ih
        simp only [chunkByGap, h]
        by_cases hgap : w'.start - w.end_ > g
        · rw [if_pos hgap]
          simpa using ih
        · rw [if_neg hgap]
          simp only [List.headD_cons, List.tail_cons]
          simpa using ih

/-- The first chunk starts with the first word. -/
theorem chunkByGap_head (g : ℚ) (w : Word) (tail : List Word) (c : List Word)
    (cs : List (List Word)) (h : chunkByGap g (w :: tail) = c :: cs) : c.head? = some w := by
  match tail with
  | [] =>
    simp [chunkByGap] at h
    simp [h.1.symm]
  | w' :: rest =>
    rcases h0 : chunkByGap g (w' :: rest) with _ | ⟨c0, cs0⟩
    · exact absurd h0 (chunkByGap_ne_nil g (w' :: rest) (by simp))
    · simp only [chunkByGap, h0] at h
      by_cases hgap : w'.start - w.end_ > g
      · rw [if_pos hgap] at h
        obtain ⟨h1, _⟩ := (List.cons.injEq _ _ _ _).mp h
        simp [← h1]
      · rw [if_neg hgap] at h
        simp only [List.headD_cons, List.tail_cons] at h
        obtain ⟨h1, _⟩ := (List.cons.injEq _ _ _ _).mp h
        simp [← h1]

/-- The loop agrees with the chunking: given that the remaining words chunk as
`c :: rest`, the loop emits one segment per chunk, the first one carrying the
pending accumulator and start time. -/
theorem group_loop_eq_chunks (g : ℚ) :
    ∀ (ws : List Word) (t : ℚ) (acc : List String) (c : List Word) (rest : List (List Word)),
      chunkByGap g ws = c :: rest →
      group_loop g ws t acc =
        mkGroupSegment t (acc ++ c.map Word.word) ((c.getLast?.map Word.end_).getD 0) ::
          rest.map segOfChunk := by
  intro ws
  induction ws with
  | nil => intro t acc c rest h; simp [chunkByGap] at h
  | cons w tail ih =>
    intro t acc c rest h
    match tail with
    | [] =>
      simp [chunkByGap] at h
      obtain ⟨h1, h2⟩ := h
      subst h1
      subst h2
      simp [group_loop]
    | w' :: rest' =>
      rcases h0 : chunkByGap g (w' :: rest') with _ | ⟨c0, cs0⟩
      · exact absurd h0 (chunkByGap_ne_nil g (w' :: rest') (by simp))
      · have hc0ne : c0 ≠ [] := chunkByGap_chunks_ne_nil g (w' :: rest') c0 (by rw [h0]; simp)
        have hc0head : c0.head? = some w' := chunkByGap_head g w' rest' c0 cs0 h0
        simp only [chunkByGap, h0] at h
        by_cases hgap : w'.start - w.end_ > g
        · rw [if_pos hgap] at h
          obtain ⟨hc, hrest⟩ := (List.cons.injEq _ _ _ _).mp h
          simp only [group_loop, if_pos hgap]
          rw [ih w'.start [] c0 cs0 h0]
          rw [← hc, ← hrest]
          have hseg : mkGroupSegment w'.start ([] ++ c0.map Word.word)
              ((c0.getLast?.map Word.end_).getD 0) = segOfChunk c0 := by
            simp [mkGroupSegment, segOfChunk, hc0head]
          rw [hseg]
          simp [mkGroupSegment]
        · rw [if_neg hgap] at h
          simp only [List.headD_cons, List.tail_cons] at h
          obtain ⟨hc, hrest⟩ := (List.cons.injEq _ _ _ _).mp h
          simp only [group_loop, if_neg hgap]
          rw [ih t (acc ++ [w.word]) c0 cs0 h0]
          rw [← hc, ← hrest]
          rcases c0 with _ | ⟨x, xs⟩
          · exact absurd rfl hc0ne
          · simp [mkGroupSegment]

/-- Claim C6, counterexample: the emitted text is the STRIPPED space-join, not
the bare space-join — a word carrying trailing whitespace is trimmed in the
output, so the claim's "text is the space-joined words" fails as stated. -/
theorem c6_counterexample :
    (_group_words_into_segments [⟨"a ", 0, 1⟩] 1.5).map Segment.text ≠
      [pyJoin " " ["a "]] := by
  decide

/-- Claim C6 (amended): for every non-empty word list, the word-grouping
fallback splits exactly at gaps strictly greater than 1.5 s (the chunking
`chunkByGap`), each produced segment takes its chunk's first word's start, its
last word's end and the space-joined words with surrounding whitespace
stripped, and the chunks concatenate back to the input (every word in exactly
one segment, in order). -/
theorem c6_groups_words_at_pauses (word_stamps : List Word) (h : word_stamps ≠ []) :
    _group_words_into_segments word_stamps 1.5 = (chunkByGap 1.5 word_stamps).map segOfChunk ∧
    (chunkByGap 1.5 word_stamps).flatten = word_stamps ∧
    ∀ c ∈ chunkByGap 1.5 word_stamps, c ≠ [] := by
  refine ⟨?_, chunkByGap_flatten 1.5 word_stamps, chunkByGap_chunks_ne_nil 1.5 word_stamps⟩
  match word_stamps with
  | w :: tail =>
    rcases h0 : chunkByGap 1.5 (w :: tail) with _ | ⟨c, rest⟩
    · exact absurd h0 (chunkByGap_ne_nil 1.5 (w :: tail) (by simp))
    · have hhead : c.head? = some w := chunkByGap_head 1.5 w tail c rest h0
      simp only [_group_words_into_segments]
      rw [group_loop_eq_chunks 1.5 (w :: tail) w.start [] c rest h0]
      have hseg : mkGroupSegment w.start ([] ++ c.map Word.word)
          ((c.getLast?.map Word.end_).getD 0) = segOfChunk c := by
        simp [mkGroupSegment, segOfChunk, hhead]
      rw [hseg]
      rfl

/-- Witness for C6: a concrete two-word list with a 2-second pause. -/
theorem c6_witness :
    ([⟨"hello", 0, 1⟩, ⟨"world", 3, 4⟩] : List Word) ≠ [] ∧
    (_group_words_into_segments [⟨"hello", 0, 1⟩, ⟨"world", 3, 4⟩] 1.5 =
        (chunkByGap 1.5 [⟨"hello", 0, 1⟩, ⟨"world", 3, 4⟩]).map segOfChunk ∧
      (chunkByGap 1.5 [⟨"hello", 0, 1⟩, ⟨"world", 3, 4⟩]).flatten =
        [⟨"hello", 0, 1⟩, ⟨"world", 3, 4⟩] ∧
      ∀ c ∈ chunkByGap 1.5 [⟨"hello", 0, 1⟩, ⟨"world", 3, 4⟩], c ≠ []) :=
  ⟨by simp, c6_groups_words_at_pauses [⟨"hello", 0, 1⟩, ⟨"world", 3, 4⟩] (by simp)⟩

/-- The character for the decimal digit `n % 10` (`'0'` + digit). -/
def digitChar (n : ℕ) : Char := Char.ofNat (48 + n % 10)

/-- Decimal digits of a natural number, most significant first (fuelled
recursion; the fuel `n + 1` always suffices). -/
def natDigitsAux : ℕ → ℕ → List Char
  | 0, _ => []
  | fuel + 1, n =>
      if n < 10 then [digitChar n]
      else natDigitsAux fuel (n / 10) ++ [digitChar (n % 10)]

/-- Decimal rendering of a natural number. -/
def natRepr (n : ℕ) : String := String.mk (natDigitsAux (n + 1) n)

/-- The number of tenths in `q`, rounded half upward:
`⌊q * 10 + 1 / 2⌋ = ⌊(20 * num + den) / (2 * den)⌋`.  Models the value printed
by Python's `f"\x7bx:.1f\x7d"` (the exact tie-breaking Python performs on binary
floats, and the sign of a negative zero, are not modelled; no claim depends
on them). -/
def tenthsOf (q : ℚ) : ℤ := Int.fdiv (20 * q.num + (q.den : ℤ)) (2 * (q.den : ℤ))

/-- Rendering of a rational to one decimal place, modelling `.1f` formatting. -/
def fmt1 (q : ℚ) : String :=
  (if tenthsOf q < 0 then "-" else "") ++
    natRepr ((tenthsOf q).natAbs / 10) ++ "." ++ natRepr ((tenthsOf q).natAbs % 10)

/-- The timestamp prefix of a transcript line (transcriber.py:300): the
bracketed one-decimal start time if `seg.start > 0`, else the empty string. -/
def timestampOf (seg : Segment) : String :=
  if seg.start > 0 then "[" ++ fmt1 seg.start ++ "s]" else ""

/-- One formatted transcript line (transcriber.py:301):
`**speaker** timestamp: text` with a space between the starred speaker and
the (possibly empty) timestamp. -/
def lineOf (seg : Segment) : String :=
  "**" ++ seg.speaker ++ "** " ++ timestampOf seg ++ ": " ++ seg.text

/-- The list `lines` built by `transcribe_meeting` (transcriber.py:298-301). -/
def transcript_lines (merged : List Segment) : List String := merged.map lineOf

/-- `full_text` joins the lines with newlines (transcriber.py:303). -/
def full_text_of (merged : List Segment) : String := pyJoin "\n" (transcript_lines merged)

/-- `max((s.end for s in merged), default=0)` (transcriber.py:313): maximum of
the `end` fields, `0` only when there are none. -/
def duration_of (merged : List Segment) : ℚ :=
  match merged.map Segment.end_ with
  | [] => 0
  | e :: es => es.foldl max e

/-- The result dict built by `transcribe_meeting` (transcriber.py:306-316). -/
structure TranscriptResult where
  segments : List Segment
  full_text : String
  plain_text : String
  me_text : String
  them_text : String
  num_segments : ℕ
  duration_seconds : ℚ
  processing_time : ℚ
  model_used : String
deriving DecidableEq, Repr

/-- Assembly of the result dict from the merged segments
(transcriber.py:297-316). -/
def buildResult (merged : List Segment) (elapsed : ℚ) (model_used : String) : TranscriptResult :=
  { segments := merged
    full_text := full_text_of merged
    plain_text := pyJoin " " (merged.map Segment.text)
    me_text := pyJoin " " ((merged.filter (fun s => s.speaker == "Me")).map Segment.text)
    them_text := pyJoin " " ((merged.filter (fun s => s.speaker == "Them")).map Segment.text)
    num_segments := merged.length
    duration_seconds := duration_of merged
    processing_time := elapsed
    model_used := model_used }

/-- Number of lines of a string: `0` for the empty string and one more than
the newline count otherwise (Python `len(s.splitlines())` for text without a
trailing newline, which is the shape `full_text` has). -/
def countLines (s : String) : ℕ := if s.data = [] then 0 else s.data.count (Char.ofNat 10) + 1

/-- The line format claimed by the specification, with the bracket omitted
exactly when `start == 0` (claim C9 as stated). -/
def specLineClaim (seg : Segment) : String :=
  "**" ++ seg.speaker ++ "** " ++
    (if seg.start = 0 then "" else "[" ++ fmt1 seg.start ++ "s]") ++ ": " ++ seg.text

/-- The line format with the bracket omitted exactly when `start ≤ 0`
(claim C9 amended, matching `seg.start > 0` in transcriber.py:300). -/
def specLineAmended (seg : Segment) : String :=
  "**" ++ seg.speaker ++ "** " ++
    (if 0 < seg.start then "[" ++ fmt1 seg.start ++ "s]" else "") ++ ": " ++ seg.text

/-- Claim C9, counterexample: on a merged segment with negative `start` the
code omits the timestamp bracket although `start ≠ 0`, so "omitted exactly
when `start == 0`" fails as stated. -/
theorem c9_counterexample :
    transcript_lines (merge_channels [⟨"Me", -1, 0, "hi", ""⟩] []) ≠
      (merge_channels [⟨"Me", -1, 0, "hi", ""⟩] []).map specLineClaim := by
  decide

/-- Appending strings concatenates their character data. -/
theorem string_data_append (s t : String) : (s ++ t).data = s.data ++ t.data := rfl

/-- A string whose data is a cons is not empty. -/
theorem ne_empty_of_data_cons {s : String} {c : Char} {cs : List Char}
    (h : s.data = c :: cs) : s ≠ "" := by
  intro he
  rw [he] at h
  simp at h

/-- Claim C9 (amended): each transcript line of a merged list is the segment
formatted as `**speaker** [starts]: text` with the start rendered to one
decimal place, and the timestamp bracket is omitted exactly when the
segment's start is ≤ 0 (the code tests `start > 0`). -/
theorem c9_line_format (mic_segments sys_segments : List Segment) :
    transcript_lines (merge_channels mic_segments sys_segments) =
      (merge_channels mic_segments sys_segments).map specLineAmended ∧
    ∀ s ∈ merge_channels mic_segments sys_segments,
      (timestampOf s = "" ↔ s.start ≤ 0) := by
  constructor
  · rfl
  · intro s _
    unfold timestampOf
    by_cases h : s.start > 0
    · rw [if_pos h]
      constructor
      · intro hts
        have hdata : ("[" ++ fmt1 s.start ++ "s]").data =
            Char.ofNat 91 :: ((fmt1 s.start ++ "s]").data) := rfl
        exact absurd hts (ne_empty_of_data_cons hdata)
      · intro hle
        exact absurd h (not_lt.mpr hle)
    · rw [if_neg h]
      simp [not_lt.mp h]

/-- No decimal digit character is the newline character. -/
theorem digitChar_ne_newline (n : ℕ) : digitChar n ≠ Char.ofNat 10 := by
  unfold digitChar
  have h : n % 10 < 10 := Nat.mod_lt _ (by norm_num)
  interval_cases h' : n % 10 <;> decide

theorem mem_natDigitsAux_ne_newline :
    ∀ fuel n : ℕ, ∀ c ∈ natDigitsAux fuel n, c ≠ Char.ofNat 10 := by
  intro fuel
  induction fuel with
  | zero => intro n c hc; simp [natDigitsAux] at hc
  | succ fuel ih =>
    intro n c hc
    simp only [natDigitsAux] at hc
    by_cases h : n < 10
    · rw [if_pos h] at hc
      simp at hc
      rw [hc]
      exact digitChar_ne_newline n
    · rw [if_neg h] at hc
      rw [List.mem_append] at hc
      rcases hc with hc | hc
      · exact ih (n / 10) c hc
      · simp at hc
        rw [hc]
        exact digitChar_ne_newline (n % 10)

theorem count_newline_natRepr (n : ℕ) : (natRepr n).data.count (Char.ofNat 10) = 0 := by
  rw [List.count_eq_zero]
  intro hmem
  exact mem_natDigitsAux_ne_newline (n + 1) n _ hmem rfl

theorem count_newline_fmt1 (q : ℚ) : (fmt1 q).data.count (Char.ofNat 10) = 0 := by
  unfold fmt1
  rw [string_data_append, string_data_append, string_data_append,
    List.count_append, List.count_append, List.count_append]
  have hsign : (if tenthsOf q < 0 then "-" else "").data.count (Char.ofNat 10) = 0 := by
    by_cases h : tenthsOf q < 0
    · rw [if_pos h]; decide
    · rw [if_neg h]; decide
  have hdot : (".").data.count (Char.ofNat 10) = 0 := by decide
  rw [hsign, hdot, count_newline_natRepr, count_newline_natRepr]

theorem count_newline_timestampOf (s : Segment) :
    (timestampOf s).data.count (Char.ofNat 10) = 0 := by
  unfold timestampOf
  by_cases h : s.start > 0
  · rw [if_pos h, string_data_append, string_data_append,
      List.count_append, List.count_append, count_newline_fmt1]
    decide
  · rw [if_neg h]
    decide

theorem count_newline_lineOf (s : Segment)
    (hspk : s.speaker.data.count (Char.ofNat 10) = 0)
    (htxt : s.text.data.count (Char.ofNat 10) = 0) :
    (lineOf s).data.count (Char.ofNat 10) = 0 := by
  unfold lineOf
  simp only [string_data_append, List.count_append]
  rw [hspk, htxt, count_newline_timestampOf]
  decide

/-- Every transcript line starts with an asterisk, hence is nonempty. -/
theorem lineOf_ne_empty (s : Segment) : lineOf s ≠ "" := by
  apply ne_empty_of_data_cons
  show (lineOf s).data = Char.ofNat 42 ::
    (((([Char.ofNat 42] ++ s.speaker.data) ++ "** ".data) ++ (timestampOf s).data ++ ": ".data)
        ++ s.text.data)
  rfl

/-- Counting lines across the newline-join: if every joined line is nonempty
and newline-free, the join has exactly one line per list entry. -/
theorem countLines_pyJoin :
    ∀ ls : List String, (∀ l ∈ ls, l.data.count (Char.ofNat 10) = 0 ∧ l ≠ "") →
      countLines (pyJoin "\n" ls) = ls.length := by
  intro ls
  induction ls with
  | nil => intro _; rfl
  | cons l tail ih =>
    intro h
    have hl := h l (by simp)
    have hlne : l.data ≠ [] := by
      intro hd
      apply hl.2
      cases l with
      | mk d =>
        simp only at hd
        rw [hd]
    match tail with
    | [] =>
      simp only [pyJoin]
      unfold countLines
      rw [if_neg hlne, hl.1]
      rfl
    | l2 :: rest =>
      have htail : ∀ x ∈ l2 :: rest, x.data.count (Char.ofNat 10) = 0 ∧ x ≠ "" :=
        fun x hx => h x (List.mem_cons_of_mem l hx)
      have ihv := ih htail
      simp only [pyJoin]
      have hdata : (l ++ "\n" ++ pyJoin "\n" (l2 :: rest)).data =
          l.data ++ Char.ofNat 10 :: (pyJoin "\n" (l2 :: rest)).data := by
        rw [string_data_append, string_data_append, List.append_assoc]
        rfl
      have hJne : (pyJoin "\n" (l2 :: rest)).data ≠ [] := by
        intro hd
        have h0 : countLines (pyJoin "\n" (l2 :: rest)) = 0 := by
          unfold countLines
          rw [if_pos hd]
        rw [ihv] at h0
        simp at h0
      have hJcount : (pyJoin "\n" (l2 :: rest)).data.count (Char.ofNat 10) + 1 =
          (l2 :: rest).length := by
        have h1 := ihv
        unfold countLines at h1
        rw [if_neg hJne] at h1
        exact h1
      unfold countLines
      rw [hdata, if_neg (by simp), List.count_append, List.count_cons_self, hl.1]
      simp only [List.length_cons] at hJcount ⊢
      omega

/-- Unfolding membership in a speaker-tagged list. -/
theorem mem_tagSpeaker {s : Segment} {spk : String} {l : List Segment}
    (h : s ∈ tagSpeaker spk l) :
    s.speaker = spk ∧ ∃ s0 ∈ l, s.text = s0.text ∧ s.end_ = s0.end_ := by
  unfold tagSpeaker at h
  rw [List.mem_map] at h
  obtain ⟨s0, hs0, heq⟩ := h
  exact ⟨by rw [← heq], s0, hs0, by rw [← heq], by rw [← heq]⟩

theorem foldl_max_nonneg :
    ∀ (es : List ℚ) (e : ℚ), 0 ≤ e → (∀ x ∈ es, 0 ≤ x) → 0 ≤ es.foldl max e := by
  intro es
  induction es with
  | nil => intro e he _; exact he
  | cons x xs ih =>
    intro e he hx
    exact ih (max e x) (le_trans he (le_max_left e x))
      (fun y hy => hx y (List.mem_cons_of_mem x hy))

/-- The result built over a merged segment list whose only segment has a
negative `end` and a newline inside its text (for the C7 counterexample). -/
def badResultExample : TranscriptResult :=
  buildResult
    (merge_channels (tagSpeaker "Me" [⟨"", -2, -1, "hi\nthere", ""⟩]) (tagSpeaker "Them" []))
    0 "parakeet"

/-- Claim C7, counterexample: with a segment whose text contains a newline
and whose `end` is negative, `full_text` has 2 lines but `num_segments = 1`,
and `duration_seconds = -1 < 0`, so the claimed invariants fail as stated. -/
theorem c7_counterexample :
    ¬(countLines badResultExample.full_text = badResultExample.num_segments ∧
      0 ≤ badResultExample.duration_seconds) := by
  decide

/-- Claim C7 (amended): for channel segments whose `end` times are
non-negative and whose texts contain no newline, the result built by
`transcribe_meeting` from the merged, speaker-tagged segments satisfies
`countLines full_text = num_segments = segments.length`,
`0 ≤ duration_seconds`, and no segment has empty text. -/
theorem c7_result_invariants (mic_segments sys_segments : List Segment)
    (elapsed : ℚ) (model_used : String)
    (hend : ∀ s ∈ mic_segments ++ sys_segments, 0 ≤ s.end_)
    (htxt : ∀ s ∈ mic_segments ++ sys_segments, s.text.data.count (Char.ofNat 10) = 0) :
    let r := buildResult
      (merge_channels (tagSpeaker "Me" mic_segments) (tagSpeaker "Them" sys_segments))
      elapsed model_used
    countLines r.full_text = r.num_segments ∧
    r.num_segments = r.segments.length ∧
    0 ≤ r.duration_seconds ∧
    ∀ s ∈ r.segments, s.text ≠ "" := by
  intro r
  have hmem : ∀ s ∈ merge_channels (tagSpeaker "Me" mic_segments) (tagSpeaker "Them" sys_segments),
      (s.speaker = "Me" ∨ s.speaker = "Them") ∧ 0 ≤ s.end_ ∧
        s.text.data.count (Char.ofNat 10) = 0 := by
    intro s hs
    have h1 := mem_of_mem_merge_channels hs
    rw [List.mem_append] at h1
    rcases h1 with h1 | h1
    · obtain ⟨hspk, s0, hs0, htxteq, hende⟩ := mem_tagSpeaker h1
      refine ⟨Or.inl hspk, ?_, ?_⟩
      · rw [hende]
        exact hend s0 (List.mem_append_left _ hs0)
      · rw [htxteq]
        exact htxt s0 (List.mem_append_left _ hs0)
    · obtain ⟨hspk, s0, hs0, htxteq, hende⟩ := mem_tagSpeaker h1
      refine ⟨Or.inr hspk, ?_, ?_⟩
      · rw [hende]
        exact hend s0 (List.mem_append_right _ hs0)
      · rw [htxteq]
        exact htxt s0 (List.mem_append_right _ hs0)
  refine ⟨?_, rfl, ?_, ?_⟩
  · show countLines (full_text_of
      (merge_channels (tagSpeaker "Me" mic_segments) (tagSpeaker "Them" sys_segments))) =
      (merge_channels (tagSpeaker "Me" mic_segments) (tagSpeaker "Them" sys_segments)).length
    unfold full_text_of transcript_lines
    rw [countLines_pyJoin]
    · exact List.length_map _ _
    · intro l hl
      rw [List.mem_map] at hl
      obtain ⟨seg, hseg, rfl⟩ := hl
      obtain ⟨hspk, _, htxt'⟩ := hmem seg hseg
      refine ⟨count_newline_lineOf seg ?_ htxt', lineOf_ne_empty seg⟩
      rcases hspk with h | h <;> rw [h] <;> decide
  · show 0 ≤ duration_of
      (merge_channels (tagSpeaker "Me" mic_segments) (tagSpeaker "Them" sys_segments))
    unfold duration_of
    rcases hmap : (merge_channels (tagSpeaker "Me" mic_segments)
        (tagSpeaker "Them" sys_segments)).map Segment.end_ with _ | ⟨e, es⟩
    · simp
    · have hall : ∀ x ∈ e :: es, 0 ≤ x := by
        intro x hx
        rw [← hmap, List.mem_map] at hx
        obtain ⟨seg, hseg, rfl⟩ := hx
        exact (hmem seg hseg).2.1
      exact foldl_max_nonneg es e (hall e (by simp)) (fun x hx => hall x (List.mem_cons_of_mem e hx))
  · intro s hs
    have hkeep := keep_of_mem_merge_channels hs
    intro he
    apply hkeep
    rw [he]
    rfl

/-- Witness for C7: two concrete well-formed channel segments. -/
theorem c7_witness :
    (∀ s ∈ ([⟨"", 0, 2, "hello", ""⟩] : List Segment) ++ [⟨"", 1, 3, "hi there", ""⟩],
        0 ≤ s.end_) ∧
    (∀ s ∈ ([⟨"", 0, 2, "hello", ""⟩] : List Segment) ++ [⟨"", 1, 3, "hi there", ""⟩],
        s.text.data.count (Char.ofNat 10) = 0) ∧
    (let r := buildResult
        (merge_channels (tagSpeaker "Me" [⟨"", 0, 2, "hello", ""⟩])
          (tagSpeaker "Them" [⟨"", 1, 3, "hi there", ""⟩])) 0 "parakeet";
      countLines r.full_text = r.num_segments ∧
      r.num_segments = r.segments.length ∧
      0 ≤ r.duration_seconds ∧
      ∀ s ∈ r.segments, s.text ≠ "") :=
  ⟨by decide, by decide,
    c7_result_invariants [⟨"", 0, 2, "hello", ""⟩] [⟨"", 1, 3, "hi there", ""⟩] 0 "parakeet"
      (by decide) (by decide)⟩

/-- Decimal rendering of a rational for the JSON form (`json.dump` prints
Python floats; the exact float digit strings are not modelled — no claim
inspects these bytes, only whether file contents changed). -/
def ratRepr (q : ℚ) : String :=
  (if q.num < 0 then "-" else "") ++ natRepr q.num.natAbs ++
    (if q.den = 1 then "" else "/" ++ natRepr q.den)

/-- A JSON string literal (escaping elided; no claim inspects these bytes). -/
def jsonString (s : String) : String := "\"" ++ s ++ "\""

/-- The JSON object for one segment, fields in `dataclasses.asdict` order. -/
def jsonOfSegment (s : Segment) : String :=
  "\x7b\"speaker\": " ++ jsonString s.speaker ++ ", \"start\": " ++ ratRepr s.start ++
    ", \"end\": " ++ ratRepr s.end_ ++ ", \"text\": " ++ jsonString s.text ++
    ", \"language\": " ++ jsonString s.language ++ "\x7d"

/-- The JSON document written by `save_transcript` (transcriber.py:330-331):
the result dict serialized with its keys in insertion order. -/
def jsonOfResult (r : TranscriptResult) : String :=
  "\x7b\"segments\": [" ++ pyJoin ", " (r.segments.map jsonOfSegment) ++
    "], \"full_text\": " ++ jsonString r.full_text ++
    ", \"plain_text\": " ++ jsonString r.plain_text ++
    ", \"me_text\": " ++ jsonString r.me_text ++
    ", \"them_text\": " ++ jsonString r.them_text ++
    ", \"num_segments\": " ++ natRepr r.num_segments ++
    ", \"duration_seconds\": " ++ ratRepr r.duration_seconds ++
    ", \"processing_time\": " ++ ratRepr r.processing_time ++
    ", \"model_used\": " ++ jsonString r.model_used ++ "\x7d"

/-- The markdown document written by `save_transcript` (transcriber.py:335-341). -/
def markdownOfResult (r : TranscriptResult) : String :=
  "# Meeting Transcript\n\n" ++
    "- Model: " ++ r.model_used ++ "\n" ++
    "- Segments: " ++ natRepr r.num_segments ++ "\n" ++
    "- Processing time: " ++ fmt1 r.processing_time ++ "s\n\n" ++
    "---\n\n" ++
    r.full_text

/-- The file system seen by `save_transcript`: a map from path to contents. -/
def FS : Type := String → Option String

/-- Writing a file (`open(path, "w")` followed by a full write). -/
def setFile (fs : FS) (path content : String) : FS :=
  fun q => if q = path then some content else fs q

/-- Reading a file's contents, `none` when absent. -/
def readFile (fs : FS) (path : String) : Option String := fs path

/-- `Transcriber.save_transcript` (transcriber.py:324-341) over the explicit
file system: the JSON file `output_path + ".json"` is written first, then the
markdown file `output_path + ".md"`.  The booleans model the success of each
of the two `open`/`write` operations; a failed write raises, aborting the
remainder (the flag `false` in the result stands for the propagated
exception), and on failure the file is not updated. -/
def save_transcript (result : TranscriptResult) (output_path : String)
    (jsonOk mdOk : Bool) (fs : FS) : FS × Bool :=
  if jsonOk then
    let fs1 := setFile fs (output_path ++ ".json") (jsonOfResult result)
    if mdOk then (setFile fs1 (output_path ++ ".md") (markdownOfResult result), true)
    else (fs1, false)
  else (fs, false)

theorem readFile_setFile_same (fs : FS) (p c : String) :
    readFile (setFile fs p c) p = some c := by
  simp [readFile, setFile]

theorem readFile_setFile_other (fs : FS) (p c q : String) (h : q ≠ p) :
    readFile (setFile fs p c) q = readFile fs q := by
  simp [readFile, setFile, h]

theorem json_md_paths_ne (p : String) : p ++ ".json" ≠ p ++ ".md" := by
  intro h
  have hd := congrArg String.data h
  rw [string_data_append, string_data_append] at hd
  have h2 : (".json").data = (".md").data := List.append_cancel_left hd
  exact absurd h2 (by decide)

/-- A result and a starting file system for the C5 counterexample: both
target files already exist with old contents. -/
def exampleResult : TranscriptResult := buildResult [] 0 "parakeet"

def exampleFS : FS := fun p =>
  if p = "transcript.json" ∨ p = "transcript.md" then some "OLD" else none

set_option maxRecDepth 4000 in
/-- Claim C5, counterexample: when the markdown write fails after the JSON
write succeeded, the JSON file holds the new contents while the markdown file
keeps its old contents — the pair is neither "both written" nor "neither
overwritten", refuting the claimed atomicity. -/
theorem c5_counterexample :
    ¬((readFile (save_transcript exampleResult "transcript" true false exampleFS).1
          "transcript.json" = some (jsonOfResult exampleResult) ∧
        readFile (save_transcript exampleResult "transcript" true false exampleFS).1
          "transcript.md" = some (markdownOfResult exampleResult)) ∨
      (readFile (save_transcript exampleResult "transcript" true false exampleFS).1
          "transcript.json" = some "OLD" ∧
        readFile (save_transcript exampleResult "transcript" true false exampleFS).1
          "transcript.md" = some "OLD")) := by
  decide

/-- Claim C5 (amended): `save_transcript` writes the JSON file and then the
markdown file sequentially, with no atomicity: when both writes succeed, both
files hold the new contents; when the JSON write fails, no file is modified
and the failure propagates; when the markdown write fails after a successful
JSON write, the JSON file already holds the new contents while the markdown
file is left untouched, and the failure propagates. -/
theorem c5_sequential_writes (result : TranscriptResult) (output_path : String) (fs : FS) :
    (readFile (save_transcript result output_path true true fs).1 (output_path ++ ".json") =
        some (jsonOfResult result) ∧
      readFile (save_transcript result output_path true true fs).1 (output_path ++ ".md") =
        some (markdownOfResult result) ∧
      (save_transcript result output_path true true fs).2 = true) ∧
    ((save_transcript result output_path false true fs).1 = fs ∧
      (save_transcript result output_path false true fs).2 = false) ∧
    (readFile (save_transcript result output_path true false fs).1 (output_path ++ ".json") =
        some (jsonOfResult result) ∧
      readFile (save_transcript result output_path true false fs).1 (output_path ++ ".md") =
        readFile fs (output_path ++ ".md") ∧
      (save_transcript result output_path true false fs).2 = false) := by
  refine ⟨⟨?_, ?_, rfl⟩, ⟨rfl, rfl⟩, ⟨?_, ?_, rfl⟩⟩
  · show readFile (setFile (setFile fs (output_path ++ ".json") (jsonOfResult result))
      (output_path ++ ".md") (markdownOfResult result)) (output_path ++ ".json") =
      some (jsonOfResult result)
    rw [readFile_setFile_other _ _ _ _ (json_md_paths_ne output_path)]
    exact readFile_setFile_same _ _ _
  · exact readFile_setFile_same _ _ _
  · exact readFile_setFile_same _ _ _
  · show readFile (setFile fs (output_path ++ ".json") (jsonOfResult result))
      (output_path ++ ".md") = readFile fs (output_path ++ ".md")
    exact readFile_setFile_other _ _ _ _ (Ne.symm (json_md_paths_ne output_path))

/-- A second failing backend stub with a distinguishable message. -/
def alwaysRaise2 : String → Except String (List Segment) := fun _ =>
  Except.error "backend down too"

/-- `Transcriber.transcribe_meeting` (transcriber.py:266-322) restricted to
its file-handling skeleton, over an explicit list of existing files.  Echo
suppression (when it succeeds, `echoOk`) creates the cleaned file
`clean_path` and transcription of the self channel then runs on it; a raised
channel-transcription exception propagates immediately — the unlink at
transcriber.py:289-293 is only reached after BOTH channel calls return.  The
unlink is attempted only when a cleaned file was produced, and an `OSError`
from it (`unlinkOk = false`) is swallowed. -/
def transcribe_meeting_model (primary : String)
    (parakeet whisper : String → Except String (List Segment))
    (echoOk unlinkOk : Bool) (mic_path sys_path clean_path : String)
    (elapsed : ℚ) (files : List String) : List String × Except String TranscriptResult :=
  let clean_mic_path := if echoOk then clean_path else mic_path
  let files1 := if echoOk then files ++ [clean_path] else files
  match transcribe_channel primary parakeet whisper clean_mic_path "Me" with
  | Except.error e => (files1, Except.error e)
  | Except.ok mic_segments =>
    match transcribe_channel primary parakeet whisper sys_path "Them" with
    | Except.error e => (files1, Except.error e)
    | Except.ok sys_segments =>
      let files2 :=
        if clean_mic_path = mic_path then files1
        else if unlinkOk then files1.erase clean_path else files1
      (files2, Except.ok (buildResult (merge_channels mic_segments sys_segments) elapsed primary))

/-- Claim C8, counterexample: when channel transcription raises (both
backends fail), the error propagates before the unlink is reached and the
cleaned temporary file is still present in the final file list — it is NOT
removed "when transcription fails with an exception". -/
theorem c8_counterexample :
    "sess/tmp_clean.wav" ∈ (transcribe_meeting_model "parakeet" alwaysRaise alwaysRaise2
        true true "sess/mic.wav" "sess/system.wav" "sess/tmp_clean.wav" 0 []).1 ∧
    (transcribe_meeting_model "parakeet" alwaysRaise alwaysRaise2
        true true "sess/mic.wav" "sess/system.wav" "sess/tmp_clean.wav" 0 []).2 =
      Except.error "backend down too" :=
  ⟨by decide, rfl⟩

/-- Claim C8 (amended): whenever echo suppression produced a cleaned file and
BOTH channel transcriptions complete, the file is removed afterward, and a
failure of the removal itself is swallowed — the pipeline still returns its
result, with the file left behind; but when a channel transcription raises,
the cleanup code is never reached: the error propagates with the cleaned file
still present. -/
theorem c8_cleanup_only_after_both_channels (primary : String)
    (parakeet whisper : String → Except String (List Segment))
    (mic_path sys_path clean_path : String) (elapsed : ℚ) (files : List String)
    (hne : clean_path ≠ mic_path) (hnotin : clean_path ∉ files) :
    (∀ mic_segments sys_segments,
      transcribe_channel primary parakeet whisper clean_path "Me" = Except.ok mic_segments →
      transcribe_channel primary parakeet whisper sys_path "Them" = Except.ok sys_segments →
      clean_path ∉ (transcribe_meeting_model primary parakeet whisper true true
          mic_path sys_path clean_path elapsed files).1 ∧
        (transcribe_meeting_model primary parakeet whisper true true
          mic_path sys_path clean_path elapsed files).2 =
          Except.ok (buildResult (merge_channels mic_segments sys_segments) elapsed primary) ∧
        (transcribe_meeting_model primary parakeet whisper true false
          mic_path sys_path clean_path elapsed files).2 =
          Except.ok (buildResult (merge_channels mic_segments sys_segments) elapsed primary) ∧
        clean_path ∈ (transcribe_meeting_model primary parakeet whisper true false
          mic_path sys_path clean_path elapsed files).1) ∧
    (∀ e unlinkOk,
      transcribe_channel primary parakeet whisper clean_path "Me" = Except.error e →
      (transcribe_meeting_model primary parakeet whisper true unlinkOk
          mic_path sys_path clean_path elapsed files).1 = files ++ [clean_path] ∧
        (transcribe_meeting_model primary parakeet whisper true unlinkOk
          mic_path sys_path clean_path elapsed files).2 = Except.error e) ∧
    (∀ sys_e unlinkOk mic_segments,
      transcribe_channel primary parakeet whisper clean_path "Me" = Except.ok mic_segments →
      transcribe_channel primary parakeet whisper sys_path "Them" = Except.error sys_e →
      (transcribe_meeting_model primary parakeet whisper true unlinkOk
          mic_path sys_path clean_path elapsed files).1 = files ++ [clean_path] ∧
        (transcribe_meeting_model primary parakeet whisper true unlinkOk
          mic_path sys_path clean_path elapsed files).2 = Except.error sys_e) := by
  have herase : (files ++ [clean_path]).erase clean_path = files := by
    rw [List.erase_append_right _ hnotin, List.erase_cons_head, List.append_nil]
  refine ⟨?_, ?_, ?_⟩
  · intro mic_segments sys_segments hmic hsys
    have hval : transcribe_meeting_model primary parakeet whisper true true
        mic_path sys_path clean_path elapsed files =
        ((files ++ [clean_path]).erase clean_path,
          Except.ok (buildResult (merge_channels mic_segments sys_segments) elapsed primary)) := by
      simp [transcribe_meeting_model, hmic, hsys, hne]
    have hval2 : transcribe_meeting_model primary parakeet whisper true false
        mic_path sys_path clean_path elapsed files =
        (files ++ [clean_path],
          Except.ok (buildResult (merge_channels mic_segments sys_segments) elapsed primary)) := by
      simp [transcribe_meeting_model, hmic, hsys, hne]
    refine ⟨?_, ?_, ?_, ?_⟩
    · rw [hval, herase]
      exact hnotin
    · rw [hval]
    · rw [hval2]
    · rw [hval2]
      simp
  · intro e unlinkOk hmic
    have hval : transcribe_meeting_model primary parakeet whisper true unlinkOk
        mic_path sys_path clean_path elapsed files =
        (files ++ [clean_path], Except.error e) := by
      simp [transcribe_meeting_model, hmic]
    exact ⟨by rw [hval], by rw [hval]⟩
  · intro sys_e unlinkOk mic_segments hmic hsys
    have hval : transcribe_meeting_model primary parakeet whisper true unlinkOk
        mic_path sys_path clean_path elapsed files =
        (files ++ [clean_path], Except.error sys_e) := by
      simp [transcribe_meeting_model, hmic, hsys]
    exact ⟨by rw [hval], by rw [hval]⟩

/-- Witness for C8: concrete stubs where both channels succeed; the cleaned
file is removed when the unlink succeeds and left behind (without failing the
pipeline) when it does not. -/
theorem c8_witness :
    "sess/tmp_clean.wav" ∉ (transcribe_meeting_model "parakeet" oneSegmentStub oneSegmentStub
        true true "sess/mic.wav" "sess/system.wav" "sess/tmp_clean.wav" 0 []).1 ∧
    (transcribe_meeting_model "parakeet" oneSegmentStub oneSegmentStub true true
        "sess/mic.wav" "sess/system.wav" "sess/tmp_clean.wav" 0 []).2 =
      Except.ok (buildResult (merge_channels (tagSpeaker "Me" [⟨"", 0, 1, "hi", "en"⟩])
        (tagSpeaker "Them" [⟨"", 0, 1, "hi", "en"⟩])) 0 "parakeet") ∧
    (transcribe_meeting_model "parakeet" oneSegmentStub oneSegmentStub true false
        "sess/mic.wav" "sess/system.wav" "sess/tmp_clean.wav" 0 []).2 =
      Except.ok (buildResult (merge_channels (tagSpeaker "Me" [⟨"", 0, 1, "hi", "en"⟩])
        (tagSpeaker "Them" [⟨"", 0, 1, "hi", "en"⟩])) 0 "parakeet") ∧
    "sess/tmp_clean.wav" ∈ (transcribe_meeting_model "parakeet" oneSegmentStub oneSegmentStub
        true false "sess/mic.wav" "sess/system.wav" "sess/tmp_clean.wav" 0 []).1 :=
  (c8_cleanup_only_after_both_channels "parakeet" oneSegmentStub oneSegmentStub
      "sess/mic.wav" "sess/system.wav" "sess/tmp_clean.wav" 0 []
      (by decide) (by decide)).1
    (tagSpeaker "Me" [⟨"", 0, 1, "hi", "en"⟩]) (tagSpeaker "Them" [⟨"", 0, 1, "hi", "en"⟩])
    rfl rfl

/-!
`Transcriber._remove_echo` (transcriber.py:164-230).  Audio samples are
modelled as real numbers (`float32` arithmetic idealized); the two input
files are the sample lists and the sample rate.  Comparisons on reals are
classical, matching the numeric comparisons of the code.
-/

section EchoSuppression

open Classical

/-- `min(len(mic_data), len(sys_data))` (transcriber.py:181). -/
def minLen (mic_data sys_data : List ℝ) : ℕ := min mic_data.length sys_data.length

/-- The truncated mic channel (transcriber.py:182). -/
def micT (mic_data sys_data : List ℝ) : List ℝ := mic_data.take (minLen mic_data sys_data)

/-- The truncated system channel (transcriber.py:183). -/
def sysT (mic_data sys_data : List ℝ) : List ℝ := sys_data.take (minLen mic_data sys_data)

/-- `int(mic_sr * 0.030)` (transcriber.py:186): 30 ms of samples. -/
def frameSize (sr : ℕ) : ℕ := 3 * sr / 100

/-- `num_frames = len(mic_data) // frame_size` (transcriber.py:187). -/
def numFrames (mic_data sys_data : List ℝ) (sr : ℕ) : ℕ :=
  minLen mic_data sys_data / frameSize sr

/-- The `i`-th frame of a channel (transcriber.py:193-194). -/
def frameOf (xs : List ℝ) (sr i : ℕ) : List ℝ :=
  (xs.drop (i * frameSize sr)).take (frameSize sr)

/-- `np.sqrt(np.mean(xs ** 2))` (transcriber.py:195-196). -/
noncomputable def rmsOf (xs : List ℝ) : ℝ :=
  Real.sqrt ((xs.map (fun x => x ^ 2)).sum / xs.length)

/-- Per-frame RMS of the mic channel. -/
noncomputable def micRms (mic_data sys_data : List ℝ) (sr i : ℕ) : ℝ :=
  rmsOf (frameOf (micT mic_data sys_data) sr i)

/-- Per-frame RMS of the system channel. -/
noncomputable def sysRms (mic_data sys_data : List ℝ) (sr i : ℕ) : ℝ :=
  rmsOf (frameOf (sysT mic_data sys_data) sr i)

/-- `np.median`: middle of the sorted list, or the mean of the two middles. -/
noncomputable def npMedian (xs : List ℝ) : ℝ :=
  let s := List.insertionSort (fun a b : ℝ => a ≤ b) xs
  if s.length % 2 = 1 then s.getD (s.length / 2) 0
  else (s.getD (s.length / 2 - 1) 0 + s.getD (s.length / 2) 0) / 2

/-- `sys_rms[sys_rms > 0]` (transcriber.py:200): the positive frame RMS
values of the system channel, in frame order. -/
noncomputable def sysPositives (mic_data sys_data : List ℝ) (sr : ℕ) : List ℝ :=
  ((List.range (numFrames mic_data sys_data sr)).map (sysRms mic_data sys_data sr)).filter
    (fun x => 0 < x)

/-- `np.median(sys_rms[sys_rms > 0]) if np.any(sys_rms > 0) else 0.001`
(transcriber.py:200). -/
noncomputable def sysMedian (mic_data sys_data : List ℝ) (sr : ℕ) : ℝ :=
  if sysPositives mic_data sys_data sr ≠ [] then npMedian (sysPositives mic_data sys_data sr)
  else 0.001

/-- `sys_threshold = max(sys_median * 0.5, 0.003)` (transcriber.py:201). -/
noncomputable def sysThreshold (mic_data sys_data : List ℝ) (sr : ℕ) : ℝ :=
  max (sysMedian mic_data sys_data sr * 0.5) 0.003

/-- `ratio = sys_rms[i] / max(mic_rms[i], 1e-6)` (transcriber.py:215). -/
noncomputable def ratioOf (mic_data sys_data : List ℝ) (sr i : ℕ) : ℝ :=
  sysRms mic_data sys_data sr i / max (micRms mic_data sys_data sr i) 1e-6

/-- A frame is gated when the system RMS exceeds the adaptive threshold and
the system/mic ratio exceeds 0.3 (transcriber.py:212-216). -/
def gatedFrame (mic_data sys_data : List ℝ) (sr i : ℕ) : Prop :=
  sysRms mic_data sys_data sr i > sysThreshold mic_data sys_data sr ∧
    ratioOf mic_data sys_data sr i > 0.3

/-- `attenuation = max(0.05, 1.0 - min(ratio * 0.8, 0.95))`
(transcriber.py:218). -/
noncomputable def attenuationOf (mic_data sys_data : List ℝ) (sr i : ℕ) : ℝ :=
  max 0.05 (1.0 - min (ratioOf mic_data sys_data sr i * 0.8) 0.95)

/-- The cleaned signal written out by `_remove_echo` (transcriber.py:205-224):
samplewise, a sample in a gated frame is multiplied by that frame's
attenuation; samples of ungated frames and the tail beyond the last full
frame are unchanged. -/
noncomputable def _remove_echo (mic_data sys_data : List ℝ) (sr : ℕ) : List ℝ :=
  (List.range (minLen mic_data sys_data)).map fun j =>
    if j / frameSize sr < numFrames mic_data sys_data sr ∧
        gatedFrame mic_data sys_data sr (j / frameSize sr) then
      (micT mic_data sys_data).getD j 0 * attenuationOf mic_data sys_data sr (j / frameSize sr)
    else (micT mic_data sys_data).getD j 0

end EchoSuppression

theorem rmsOf_nonneg (xs : List ℝ) : 0 ≤ rmsOf xs := Real.sqrt_nonneg _

theorem ratioOf_nonneg (mic_data sys_data : List ℝ) (sr i : ℕ) :
    0 ≤ ratioOf mic_data sys_data sr i := by
  unfold ratioOf
  apply div_nonneg (rmsOf_nonneg _)
  have h0 : (0 : ℝ) < 1e-6 := by norm_num
  exact le_trans (le_of_lt h0) (le_max_right _ _)

theorem rmsOf_zero_of_all_zero {xs : List ℝ} (h : ∀ x ∈ xs, x = 0) : rmsOf xs = 0 := by
  unfold rmsOf
  have hsum : (xs.map (fun x => x ^ 2)).sum = 0 := by
    apply List.sum_eq_zero
    intro y hy
    rw [List.mem_map] at hy
    obtain ⟨x, hx, rfl⟩ := hy
    rw [h x hx]
    ring
  rw [hsum, zero_div, Real.sqrt_zero]

theorem mem_frameOf_of_mem {xs : List ℝ} {sr i : ℕ} {x : ℝ} (h : x ∈ frameOf xs sr i) :
    x ∈ xs :=
  List.mem_of_mem_drop (List.mem_of_mem_take h)

theorem mem_sysT_of_mem {mic_data sys_data : List ℝ} {x : ℝ}
    (h : x ∈ sysT mic_data sys_data) : x ∈ sys_data :=
  List.mem_of_mem_take h

theorem map_getD_range (l : List ℝ) : (List.range l.length).map (fun j => l.getD j 0) = l := by
  apply List.ext_getElem
  · simp
  · intro i h1 h2
    simp [List.getD_eq_getElem?_getD, List.getElem?_eq_getElem h2]

theorem micT_length (mic_data sys_data : List ℝ) :
    (micT mic_data sys_data).length = minLen mic_data sys_data := by
  simp only [micT, List.length_take, minLen]
  omega

/-- Claim C3 (confirmed): for every input pair and sample rate, the
attenuation factor of any gated frame lies in [0.05, 1.0]; and if every
sample of the remote (system) channel is zero, no frame is gated and the
cleaned output equals the mic input truncated to the common length. -/
theorem c3_attenuation_bounds (mic_data sys_data : List ℝ) (sr : ℕ) :
    (∀ i, i < numFrames mic_data sys_data sr → gatedFrame mic_data sys_data sr i →
      0.05 ≤ attenuationOf mic_data sys_data sr i ∧
        attenuationOf mic_data sys_data sr i ≤ 1) ∧
    ((∀ x ∈ sys_data, x = 0) →
      (∀ i, i < numFrames mic_data sys_data sr → ¬ gatedFrame mic_data sys_data sr i) ∧
      _remove_echo mic_data sys_data sr = mic_data.take (minLen mic_data sys_data)) := by
  classical
  constructor
  · intro i _ _
    constructor
    · exact le_max_left _ _
    · apply max_le
      · norm_num
      · have hmin : 0 ≤ min (ratioOf mic_data sys_data sr i * 0.8) 0.95 := by
          apply le_min
          · exact mul_nonneg (ratioOf_nonneg mic_data sys_data sr i) (by norm_num)
          · norm_num
        linarith
  · intro hzero
    have hrms : ∀ i, sysRms mic_data sys_data sr i = 0 := by
      intro i
      apply rmsOf_zero_of_all_zero
      intro x hx
      exact hzero x (mem_sysT_of_mem (mem_frameOf_of_mem hx))
    have hnot : ∀ i, i < numFrames mic_data sys_data sr → ¬ gatedFrame mic_data sys_data sr i := by
      intro i _ hg
      have h1 := hg.1
      rw [hrms i] at h1
      have h2 : (0.003 : ℝ) ≤ sysThreshold mic_data sys_data sr := le_max_right _ _
      linarith
    refine ⟨hnot, ?_⟩
    unfold _remove_echo
    have hcong : ∀ j ∈ List.range (minLen mic_data sys_data),
        (if j / frameSize sr < numFrames mic_data sys_data sr ∧
            gatedFrame mic_data sys_data sr (j / frameSize sr) then
          (micT mic_data sys_data).getD j 0 *
            attenuationOf mic_data sys_data sr (j / frameSize sr)
        else (micT mic_data sys_data).getD j 0) = (micT mic_data sys_data).getD j 0 := by
      intro j _
      apply if_neg
      intro hconj
      exact hnot (j / frameSize sr) hconj.1 hconj.2
    rw [List.map_congr_left hcong]
    have hmap := map_getD_range (micT mic_data sys_data)
    rw [micT_length mic_data sys_data] at hmap
    rw [hmap]
    rfl

theorem frameSize_34 : frameSize 34 = 1 := rfl

theorem sysRms_ex : sysRms [(0 : ℝ)] [(1 : ℝ)] 34 0 = 1 := by
  norm_num [sysRms, rmsOf, frameOf, sysT, minLen, frameSize, Real.sqrt_one]

theorem micRms_ex : micRms [(0 : ℝ)] [(1 : ℝ)] 34 0 = 0 := by
  norm_num [micRms, rmsOf, frameOf, micT, minLen, frameSize, Real.sqrt_zero]

theorem sysPositives_ex : sysPositives [(0 : ℝ)] [(1 : ℝ)] 34 = [1] := by
  have h1 : numFrames [(0 : ℝ)] [(1 : ℝ)] 34 = 1 := rfl
  unfold sysPositives
  rw [h1]
  rw [show List.range 1 = [0] from rfl, List.map_cons, List.map_nil, sysRms_ex]
  rw [List.filter_cons]
  simp

theorem npMedian_ex : npMedian [(1 : ℝ)] = 1 := by
  simp [npMedian, List.insertionSort]

theorem sysThreshold_ex : sysThreshold [(0 : ℝ)] [(1 : ℝ)] 34 = 0.5 := by
  unfold sysThreshold sysMedian
  rw [sysPositives_ex]
  rw [if_pos (by simp)]
  rw [npMedian_ex]
  norm_num [max_eq_left]

theorem gated_ex : gatedFrame [(0 : ℝ)] [(1 : ℝ)] 34 0 := by
  constructor
  · rw [sysRms_ex, sysThreshold_ex]
    norm_num
  · unfold ratioOf
    rw [sysRms_ex, micRms_ex]
    rw [max_eq_right (by norm_num : (0 : ℝ) ≤ 1e-6)]
    norm_num

/-- Witness for C3: a quiet-mic/loud-system frame is gated and its
attenuation is within bounds; an all-zero system channel gates nothing and
passes the truncated mic signal through unchanged. -/
theorem c3_witness :
    (0.05 ≤ attenuationOf [(0 : ℝ)] [(1 : ℝ)] 34 0 ∧
      attenuationOf [(0 : ℝ)] [(1 : ℝ)] 34 0 ≤ 1) ∧
    ((∀ i, i < numFrames [(1 : ℝ)] [(0 : ℝ)] 34 → ¬ gatedFrame [(1 : ℝ)] [(0 : ℝ)] 34 i) ∧
      _remove_echo [(1 : ℝ)] [(0 : ℝ)] 34 = List.take (minLen [(1 : ℝ)] [(0 : ℝ)]) [(1 : ℝ)]) :=
  ⟨(c3_attenuation_bounds [(0 : ℝ)] [(1 : ℝ)] 34).1 0 (by decide) gated_ex,
    (c3_attenuation_bounds [(1 : ℝ)] [(0 : ℝ)] 34).2 (by intro x hx; simpa using hx)⟩

end Hlopya
